import Mathlib

/-!
Verification of the data-extraction / normalization / AI-enrichment pipeline
of the ASEAN stock analysis app.

The orchestrator (the Start Analysis handler of `app.py`) is embedded as a
pure function over abstract fetch / extract components, instrumented with an
event trace recording fetch calls, sleep calls and enrichment-batch calls.
The `data_processor` module (Fetcher, Record Normalizer, Segment Enrichment
Batcher) is not part of the sources; its operations are modelled from the
specification where a property depends on them.

Conventions: Python exceptions are modelled with `Except String`; Python
numbers occurring in financial figures are modelled as `ℚ` (so every value
the model can produce is a finite number, and division by zero is an
explicit error case of `pyDiv` rather than a silent `inf`/`NaN`).
-/

/-- One financial-statement table: period columns (most recent first) and
rows keyed by line-item name, with one optional cell per period column
(`none` models an explicitly null cell). -/
structure FinTable where
  periods : List String
  items : List (String × List (Option ℚ))
deriving DecidableEq

/-- Raw per-ticker data produced by the Fetcher: a company-attributes
mapping, the two financial statement tables, and the major-holders table
rendered as (entity, value) rows. Any part may be absent. -/
structure RawTickerData where
  info : List (String × String)
  balanceSheet : Option FinTable
  incomeStatement : Option FinTable
  majorHolders : Option (List (String × String))
deriving DecidableEq

/-- The canonical per-company record assembled by the Normalizer, restricted
to the identity, text and financial-figure fields the verified properties
concern. -/
structure NormalizedRecord where
  code : String
  name : String
  currency : String
  summary : String
  segment : String
  shareholders : String
  revenue : ℚ
  grossProfit : ℚ
  operatingProfit : ℚ
  pretaxProfit : ℚ
  netProfitGroup : ℚ
  netProfitShareholders : ℚ
  minorityInterest : ℚ
  shareholdersEquity : ℚ
  totalEquity : ℚ
  totalAssets : ℚ
  totalDebt : ℚ
  debtEquityRatio : ℚ
  loanEquityRatio : ℚ
deriving DecidableEq

/-- Observable events of one run of the Start Analysis handler: a Fetcher
invocation with its argument, a Normalizer invocation with its code
argument, a `time.sleep` with its duration in milliseconds (`time.sleep(0.5)`
is `sleepCall 500`), and an Enrichment Batcher invocation with its argument
list. -/
inductive Event where
  | fetchCall (arg : String)
  | extractCall (arg : String)
  | sleepCall (ms : Nat)
  | enrichCall (args : List NormalizedRecord)
deriving DecidableEq

/-- Outcome of the Start Analysis handler: either the run completed with a
final record list, or the run-level `except Exception` displayed an error. -/
inductive RunOutcome where
  | completed (results : List NormalizedRecord)
  | errorShown (msg : String)
deriving DecidableEq

/-- Python division: raises `ZeroDivisionError` on a zero divisor, and
otherwise yields an exact (finite) rational. -/
def pyDiv (a b : ℚ) : Except String ℚ :=
  if b = 0 then Except.error "ZeroDivisionError" else Except.ok (a / b)

/-- Drop leading whitespace characters. -/
def skipWs : List Char → List Char
  | [] => []
  | c :: cs => if c.isWhitespace then skipWs cs else c :: cs

/-- Python's `str.strip()`: the string with surrounding whitespace removed
(leading and trailing). -/
def pyStrip (s : String) : String :=
  String.mk (skipWs ((skipWs s.toList.reverse).reverse))

/-- The data retrieval loop of `app.py` (lines 111-125), instrumented with
an event trace.  For each code the loop strips surrounding whitespace,
invokes the Fetcher (`get_stock_data`), appends the Normalizer's record
(`extract_data`) only when the fetch returned data, and sleeps 0.5 s.  The
loop body has no per-code exception handler: an exception from either
component propagates immediately, ending the loop. -/
def dataLoopT (fetch : String → Except String (Option RawTickerData))
    (extract : String → RawTickerData → Except String NormalizedRecord) :
    List String → List NormalizedRecord →
      List Event × Except String (List NormalizedRecord)
  | [], acc => ([], Except.ok acc)
  | c :: rest, acc =>
    match fetch (pyStrip c) with
    | Except.error e => ([Event.fetchCall (pyStrip c)], Except.error e)
    | Except.ok none =>
      (Event.fetchCall (pyStrip c) :: Event.sleepCall 500 ::
        (dataLoopT fetch extract rest acc).1,
       (dataLoopT fetch extract rest acc).2)
    | Except.ok (some raw) =>
      match extract (pyStrip c) raw with
      | Except.error e =>
        ([Event.fetchCall (pyStrip c), Event.extractCall (pyStrip c)], Except.error e)
      | Except.ok r =>
        (Event.fetchCall (pyStrip c) :: Event.extractCall (pyStrip c) ::
          Event.sleepCall 500 :: (dataLoopT fetch extract rest (acc ++ [r])).1,
         (dataLoopT fetch extract rest (acc ++ [r])).2)

/-- The record the loop accumulates for one input code, if any: present
exactly when the fetch of the trimmed code returns data and extraction
succeeds. -/
def recordOf (fetch : String → Except String (Option RawTickerData))
    (extract : String → RawTickerData → Except String NormalizedRecord)
    (c : String) : Option NormalizedRecord :=
  match fetch (pyStrip c) with
  | Except.ok (some raw) =>
    match extract (pyStrip c) raw with
    | Except.ok r => some r
    | Except.error _ => none
  | _ => none

/-- The trace of events one code contributes on an exception-free run. -/
def codeTrace (fetch : String → Except String (Option RawTickerData))
    (c : String) : List Event :=
  match fetch (pyStrip c) with
  | Except.ok (some _) =>
    [Event.fetchCall (pyStrip c), Event.extractCall (pyStrip c), Event.sleepCall 500]
  | _ => [Event.fetchCall (pyStrip c), Event.sleepCall 500]

/-- Whether an event is an Enrichment Batcher invocation. -/
def isEnrichCall : Event → Bool
  | Event.enrichCall _ => true
  | _ => false

/-- Modelled from the spec: the missing `data_processor` module's
latest-reporting-period rule (Record Normalizer, algorithm step 1): the
first (most recent) column of the balance sheet if present and non-empty,
else the first column of the income statement, else undefined. -/
def latestPeriod (bs incSt : Option FinTable) : Option String :=
  match bs.bind (fun t => t.periods.head?) with
  | some p => some p
  | none => incSt.bind (fun t => t.periods.head?)

/-- Modelled from the spec: the missing `data_processor` module's single
field-lookup rule (Record Normalizer, algorithm step 2): the cell value if
the table is present, the line item exists and the period column exists; a
present-but-null cell and every absence alike yield zero. -/
def tableLookup (t : Option FinTable) (item : String) (period : Option String) : ℚ :=
  match t, period with
  | some tb, some p =>
    match tb.items.lookup item with
    | some row =>
      match tb.periods.findIdx? (fun q => q = p) with
      | some i =>
        match row.get? i with
        | some (some v) => v
        | some none => 0
        | none => 0
      | none => 0
    | none => 0
  | _, _ => 0

/-- Modelled from the spec: the missing `data_processor` module's
company-attribute lookup with empty-string fallback. -/
def infoStr (raw : RawTickerData) (key : String) : String :=
  (raw.info.lookup key).getD ""

/-- Modelled from the spec: the currency display-name substitution (Record
Normalizer, algorithm step 5): the raw code "CNY" is displayed as
"RMB (CNY)". -/
def displayCurrency (c : String) : String :=
  if c = "CNY" then "RMB (CNY)" else c

/-- Modelled from the spec: the shareholder-summary rendering (Record
Normalizer, algorithm step 7): the top 5 rows of the major-holders table as
newline-joined "entity: value" lines, with a defined sentinel when the
table is absent or empty. -/
def shareholderSummary (mh : Option (List (String × String))) : String :=
  match mh with
  | none => "not available"
  | some [] => "not available"
  | some rows =>
    String.intercalate "\n" ((rows.take 5).map (fun rc => rc.1 ++ ": " ++ rc.2))

/-- Modelled from the spec: the missing `data_processor.extract_data`
(Record Normalizer, algorithm steps 1-5, 7-8; market classification and
exchange-rate resolution are omitted, no verified property concerns them).
Every financial figure is extracted through `tableLookup` (zero on any
absence), fallback chains take the first non-zero alternative, and the two
equity ratios guard division by zero by returning 0 when total equity is
zero; the division itself is Python division, which raises on a zero
divisor. The segment field starts empty. -/
def extract_data (code : String) (raw : RawTickerData) :
    Except String NormalizedRecord :=
  let p := latestPeriod raw.balanceSheet raw.incomeStatement
  let bs := fun item => tableLookup raw.balanceSheet item p
  let incSt := fun item => tableLookup raw.incomeStatement item p
  let revenue := incSt "Total Revenue"
  let grossProfit := incSt "Gross Profit"
  let operatingProfit := incSt "Operating Income"
  let pretax := incSt "Pretax Income"
  let pretaxProfit := if pretax ≠ 0 then pretax else operatingProfit
  let netIncl := incSt "Net Income Including Noncontrolling Interests"
  let netSh := incSt "Net Income"
  let netProfitGroup := if netIncl ≠ 0 then netIncl else netSh
  let minorityInterest := bs "Minority Interest"
  let shareholdersEquity := bs "Stockholders Equity"
  let totalEquityIncl := bs "Total Equity Gross Minority Interest"
  let totalEquity := if totalEquityIncl ≠ 0 then totalEquityIncl else shareholdersEquity
  let totalAssets := bs "Total Assets"
  let totalDebt := bs "Total Debt"
  match (if totalEquity = 0 then Except.ok 0
         else pyDiv (totalAssets - totalEquity) totalEquity) with
  | Except.error e => Except.error e
  | Except.ok debtEquityRatio =>
    match (if totalEquity = 0 then Except.ok 0
           else pyDiv totalDebt totalEquity) with
    | Except.error e => Except.error e
    | Except.ok loanEquityRatio =>
      Except.ok
        { code := code
          name := infoStr raw "longName"
          currency := displayCurrency (infoStr raw "financialCurrency")
          summary := infoStr raw "longBusinessSummary"
          segment := ""
          shareholders := shareholderSummary raw.majorHolders
          revenue := revenue
          grossProfit := grossProfit
          operatingProfit := operatingProfit
          pretaxProfit := pretaxProfit
          netProfitGroup := netProfitGroup
          netProfitShareholders := netSh
          minorityInterest := minorityInterest
          shareholdersEquity := shareholdersEquity
          totalEquity := totalEquity
          totalAssets := totalAssets
          totalDebt := totalDebt
          debtEquityRatio := debtEquityRatio
          loanEquityRatio := loanEquityRatio }

/-- The opening-brace character. -/
def lbrace : Char := Char.ofNat 123

/-- The closing-brace character. -/
def rbrace : Char := Char.ofNat 125

/-- Consume characters up to the closing double quote of a JSON string whose
opening quote has already been consumed; fails if the quote never closes. -/
def takeStr : List Char → Option (List Char × List Char)
  | [] => none
  | c :: cs =>
    if c = '"' then some ([], cs)
    else
      match takeStr cs with
      | some (s, rest) => some (c :: s, rest)
      | none => none

/-- Parse one double-quoted JSON string (leading whitespace allowed). -/
def parseJString (cs : List Char) : Option (String × List Char) :=
  match skipWs cs with
  | [] => none
  | c :: cs' =>
    if c = '"' then (takeStr cs').map (fun p => (String.mk p.1, p.2))
    else none

/-- Modelled from the spec: the member list of the flat JSON object the
enrichment backend is instructed to return (ticker code mapped to a short
segment string); fuelled recursion over the remaining characters. -/
def parseMembers (fuel : Nat) (cs : List Char)
    (acc : List (String × String)) : Option (List (String × String)) :=
  match fuel with
  | 0 => none
  | fuel + 1 =>
    match parseJString cs with
    | none => none
    | some (k, cs₁) =>
      match skipWs cs₁ with
      | ':' :: cs₂ =>
        match parseJString cs₂ with
        | none => none
        | some (v, cs₃) =>
          match skipWs cs₃ with
          | c :: cs₄ =>
            if c = ',' then parseMembers fuel cs₄ (acc ++ [(k, v)])
            else if c = rbrace then
              if (skipWs cs₄).isEmpty then some (acc ++ [(k, v)]) else none
            else none
          | [] => none
      | _ => none

/-- Modelled from the spec: tolerant extraction of the substring between the
first opening brace and the last closing brace of the raw model response
(both braces included); `none` when no such well-ordered pair exists. -/
def braceExtract (s : String) : Option (List Char) :=
  let cs := s.toList
  match cs.findIdx? (fun c => c = lbrace), cs.reverse.findIdx? (fun c => c = rbrace) with
  | some i, some j' =>
    let j := cs.length - 1 - j'
    if i ≤ j then some ((cs.drop i).take (j + 1 - i)) else none
  | _, _ => none

/-- Modelled from the spec: defensive parsing of the enrichment backend's
free-form response (Segment Enrichment Batcher, algorithm step 5): extract
the outermost-brace substring, then parse it as a flat JSON object mapping
ticker code to segment label; `none` on any malformed input. -/
def parseSegments (txt : String) : Option (List (String × String)) :=
  match braceExtract txt with
  | none => none
  | some cs =>
    match skipWs cs with
    | [] => none
    | c :: cs' =>
      if c = lbrace then
        match skipWs cs' with
        | [] => none
        | d :: cs'' =>
          if d = rbrace then
            if (skipWs cs'').isEmpty then some [] else none
          else parseMembers (cs.length + 1) (d :: cs'') []
      else none

/-- Modelled from the spec: whitespace runs (including newlines) collapsed
to single spaces, for the per-record summary text of the prompt. -/
def collapseWs (s : String) : String :=
  String.mk (go s.toList)
where
  go : List Char → List Char
    | [] => []
    | [c] => [if c.isWhitespace then ' ' else c]
    | c :: d :: cs =>
      if c.isWhitespace && d.isWhitespace then go (d :: cs)
      else (if c.isWhitespace then ' ' else c) :: go (d :: cs)

/-- Modelled from the spec: the per-batch prompt (Segment Enrichment
Batcher, algorithm step 3): an instruction to return only a JSON object
mapping ticker code to a short comma-separated segment string, followed by
one line per record with its code and its whitespace-collapsed summary
truncated to a 500-character budget. -/
def buildPrompt (batch : List NormalizedRecord) : String :=
  "Return only a JSON object mapping each ticker code to a short " ++
    "comma-separated segment string (or a 3-4 word industry guess).\n" ++
    String.intercalate "\n"
      (batch.map (fun r => r.code ++ ": " ++ (collapseWs r.summary).take 500))

/-- Fixed-size partition of a list (Segment Enrichment Batcher, algorithm
step 2). -/
def chunkList : Nat → List α → List (List α)
  | _, [] => []
  | 0, _ :: _ => []
  | n + 1, x :: xs => (x :: xs.take n) :: chunkList (n + 1) (xs.drop n)
termination_by _ l => l.length
decreasing_by
  simp [List.length_drop]
  omega

/-- Modelled from the spec: the enrichment batch size (a tunable constant in
the acceptable 15-20 range). -/
def batchSize : Nat := 15

/-- Modelled from the spec: merging a parsed code-to-label map into records
(Segment Enrichment Batcher, algorithm step 6): a record whose ticker code
the map contains gets the mapped label as its segment; codes absent from
the map keep their existing segment value. -/
def applySegments (m : List (String × String))
    (recs : List NormalizedRecord) : List NormalizedRecord :=
  recs.map (fun r =>
    match m.lookup r.code with
    | some s => { r with segment := s }
    | none => r)

/-- Modelled from the spec: one batch's backend invocation and response
parse; `none` when the backend raised or the response failed to parse. -/
def segMapOf (backend : String → Except String String)
    (batch : List NormalizedRecord) : Option (List (String × String)) :=
  match backend (buildPrompt batch) with
  | Except.error _ => none
  | Except.ok txt => parseSegments txt

/-- Modelled from the spec: the per-batch step of the Segment Enrichment
Batcher: a backend or parsing failure is caught and leaves the accumulated
records untouched; a successful parse merges its labels. -/
def enrichStep (backend : String → Except String String)
    (acc : List NormalizedRecord) (batch : List NormalizedRecord) :
    List NormalizedRecord :=
  match segMapOf backend batch with
  | none => acc
  | some m => applySegments m acc

/-- Modelled from the spec: the missing
`data_processor.batch_analyze_segments` (Segment Enrichment Batcher):
filter to records with a non-empty business summary, partition them into
fixed-size batches, and fold the best-effort per-batch step over the full
record list. -/
def batch_analyze_segments (backend : String → Except String String)
    (recs : List NormalizedRecord) : List NormalizedRecord :=
  (chunkList batchSize (recs.filter (fun r => r.summary ≠ ""))).foldl
    (enrichStep backend) recs

/-- The Start Analysis handler of `app.py` (lines 99-133) restricted to the
pipeline core: run the data retrieval loop, then invoke the Enrichment
Batcher once over the full accumulated list, but only when that list is
non-empty (line 128's truthiness test); an exception escaping the loop is
caught by the handler-level `except Exception` and displayed, ending the
run. -/
def analysisT (fetch : String → Except String (Option RawTickerData))
    (extract : String → RawTickerData → Except String NormalizedRecord)
    (backend : String → Except String String) (codes : List String) :
    List Event × RunOutcome :=
  match (dataLoopT fetch extract codes []).2 with
  | Except.error e => ((dataLoopT fetch extract codes []).1, RunOutcome.errorShown e)
  | Except.ok results =>
    if results.isEmpty then
      ((dataLoopT fetch extract codes []).1, RunOutcome.completed results)
    else ((dataLoopT fetch extract codes []).1 ++ [Event.enrichCall results],
      RunOutcome.completed (batch_analyze_segments backend results))

/-! ## Helper lemmas about the data retrieval loop -/

/-- On an exception-free run, the loop's result is the accumulator followed
by, in input order, the one record each successfully fetched code
contributes. -/
theorem dataLoopT_ok_eq (fetch : String → Except String (Option RawTickerData))
    (extract : String → RawTickerData → Except String NormalizedRecord) :
    ∀ (codes : List String) (acc rs : List NormalizedRecord),
      (dataLoopT fetch extract codes acc).2 = Except.ok rs →
      rs = acc ++ codes.filterMap (recordOf fetch extract) := by
  intro codes
  induction codes with
  | nil =>
    intro acc rs h
    simp [dataLoopT] at h
    simp [h]
  | cons c rest ih =>
    intro acc rs h
    rw [dataLoopT] at h
    split at h
    · simp at h
    · next hf =>
      have := ih acc rs h
      simp [this, recordOf, List.filterMap_cons, hf]
    · next raw hf =>
      split at h
      · simp at h
      · next r he =>
        have := ih (acc ++ [r]) rs h
        simp [this, recordOf, List.filterMap_cons, hf, he]

/-- On an exception-free run, the loop's event trace is the concatenation,
in input order, of the per-code traces: fetch, (extract when data was
returned), then a 0.5-second sleep, for one code after another. -/
theorem dataLoopT_ok_trace (fetch : String → Except String (Option RawTickerData))
    (extract : String → RawTickerData → Except String NormalizedRecord) :
    ∀ (codes : List String) (acc rs : List NormalizedRecord),
      (dataLoopT fetch extract codes acc).2 = Except.ok rs →
      (dataLoopT fetch extract codes acc).1 = codes.flatMap (codeTrace fetch) := by
  intro codes
  induction codes with
  | nil =>
    intro acc rs h
    simp [dataLoopT]
  | cons c rest ih =>
    intro acc rs h
    rw [dataLoopT] at h ⊢
    split at h
    · simp at h
    · next hf =>
      have := ih acc rs h
      simp [hf, this, codeTrace, List.flatMap_cons]
    · next raw hf =>
      split at h
      · simp at h
      · next r he =>
        have := ih (acc ++ [r]) rs h
        simp [hf, he, this, codeTrace, List.flatMap_cons]

/-- Every Fetcher invocation the loop makes, on any run, takes the stripped
form of one of the input codes as its argument. -/
theorem dataLoopT_fetch_args (fetch : String → Except String (Option RawTickerData))
    (extract : String → RawTickerData → Except String NormalizedRecord) :
    ∀ (codes : List String) (acc : List NormalizedRecord) (s : String),
      Event.fetchCall s ∈ (dataLoopT fetch extract codes acc).1 →
      ∃ c ∈ codes, s = pyStrip c := by
  intro codes
  induction codes with
  | nil =>
    intro acc s h
    simp [dataLoopT] at h
  | cons c rest ih =>
    intro acc s h
    rw [dataLoopT] at h
    split at h
    · simp at h
      exact ⟨c, by simp, h⟩
    · simp at h
      rcases h with h | h
      · exact ⟨c, by simp, h⟩
      · obtain ⟨d, hd, hs⟩ := ih acc s h
        exact ⟨d, by simp [hd], hs⟩
    · split at h
      · simp at h
        exact ⟨c, by simp, h⟩
      · next r he =>
        simp at h
        rcases h with h | h
        · exact ⟨c, by simp, h⟩
        · obtain ⟨d, hd, hs⟩ := ih (acc ++ [r]) s h
          exact ⟨d, by simp [hd], hs⟩

/-! ## Helper lemmas about the enrichment fold -/

/-- Merging segment labels never changes the number of records. -/
theorem applySegments_length (m : List (String × String))
    (recs : List NormalizedRecord) :
    (applySegments m recs).length = recs.length := by
  simp [applySegments]

/-- The enrichment fold never changes the number of records. -/
theorem foldl_enrichStep_length (backend : String → Except String String)
    (bs : List (List NormalizedRecord)) :
    ∀ acc, (List.foldl (enrichStep backend) acc bs).length = acc.length := by
  induction bs with
  | nil => intro acc; simp
  | cons b rest ih =>
    intro acc
    rw [List.foldl_cons, ih]
    unfold enrichStep
    cases h : segMapOf backend b <;> simp [applySegments]

/-- A leading run of batches whose backend call or response parse failed
leaves the accumulated records untouched: the fold continues on the later
batches exactly as if the failed batches were not there. -/
theorem foldl_enrichStep_skip (backend : String → Except String String) :
    ∀ (bs₁ bs₂ : List (List NormalizedRecord)) (acc : List NormalizedRecord),
      (∀ b ∈ bs₁, segMapOf backend b = none) →
      List.foldl (enrichStep backend) acc (bs₁ ++ bs₂) =
        List.foldl (enrichStep backend) acc bs₂ := by
  intro bs₁
  induction bs₁ with
  | nil => intro bs₂ acc _; simp
  | cons b rest ih =>
    intro bs₂ acc hfail
    have hb : segMapOf backend b = none := hfail b (by simp)
    rw [List.cons_append, List.foldl_cons]
    have : enrichStep backend acc b = acc := by simp [enrichStep, hb]
    rw [this]
    exact ih bs₂ acc (fun d hd => hfail d (by simp [hd]))

/-- The enrichment fold never changes the number of records (stated for the
full Batcher). -/
theorem batch_analyze_segments_length (backend : String → Except String String)
    (recs : List NormalizedRecord) :
    (batch_analyze_segments backend recs).length = recs.length := by
  unfold batch_analyze_segments
  exact foldl_enrichStep_length backend _ recs

/-- The data retrieval loop itself never invokes the Enrichment Batcher. -/
theorem dataLoopT_no_enrich (fetch : String → Except String (Option RawTickerData))
    (extract : String → RawTickerData → Except String NormalizedRecord) :
    ∀ (codes : List String) (acc : List NormalizedRecord),
      ((dataLoopT fetch extract codes acc).1).countP isEnrichCall = 0 := by
  intro codes
  induction codes with
  | nil => intro acc; simp [dataLoopT]
  | cons c rest ih =>
    intro acc
    rw [dataLoopT]
    split
    · simp [List.countP_cons, isEnrichCall]
    · simp [List.countP_cons, isEnrichCall, ih acc]
    · split
      · simp [List.countP_cons, isEnrichCall]
      · simp [List.countP_cons, isEnrichCall, ih]

deriving instance DecidableEq for Except

/-! ## Concrete fixtures used by witnesses and counterexamples -/

/-- A raw payload with a non-empty attribute mapping and no financial
tables. -/
def rawEmpty : RawTickerData := ⟨[("longName", "Empty Co")], none, none, none⟩

/-- A Fetcher that reports every ticker as unknown (returns absent). -/
def fetchAbsent : String → Except String (Option RawTickerData) :=
  fun _ => Except.ok none

/-- A Fetcher that finds data for ticker "B" only. -/
def fetchMixed : String → Except String (Option RawTickerData) :=
  fun s => if s = "B" then Except.ok (some rawEmpty) else Except.ok none

/-- A Fetcher that raises on ticker "A" and returns data for every other
ticker. -/
def fetchBoom : String → Except String (Option RawTickerData) :=
  fun s => if s = "A" then Except.error "boom" else Except.ok (some rawEmpty)

/-- An enrichment backend that is entirely unavailable. -/
def backendDown : String → Except String String :=
  fun _ => Except.error "backend down"

/-- A valid enrichment-backend response carrying one segment assignment. -/
def jsonAAA : String := "\x7b\"AAA\": \"Tech, Cloud\"\x7d"

/-- An enrichment backend that always answers with `jsonAAA`. -/
def backendOk : String → Except String String :=
  fun _ => Except.ok jsonAAA

/-- The record `extract_data` produces for code "B" from `rawEmpty`. -/
def recEmptyB : NormalizedRecord :=
  ⟨"B", "Empty Co", "", "", "", "not available",
   0, 0, 0, 0, 0, 0, 0, 0, 0, 0, 0, 0, 0⟩

/-- A normalized record for ticker "AAA" with a non-empty summary and an
empty segment. -/
def recA : NormalizedRecord :=
  ⟨"AAA", "Cloud Co", "", "Cloud software company", "", "not available",
   0, 0, 0, 0, 0, 0, 0, 0, 0, 0, 0, 0, 0⟩

/-! ## Claims -/

/-- Claim C2: for every code whose fetch returns absent, the orchestrator
appends no record for that code (`recordOf` is `none`), raises no
exception, and proceeds to the next code: the loop on `c :: rest` records
the fetch and the sleep for `c` and otherwise behaves exactly as the loop
on `rest` with the same accumulator, so such codes are excluded from the
output list. -/
theorem absent_fetch_skips_code
    (fetch : String → Except String (Option RawTickerData))
    (extract : String → RawTickerData → Except String NormalizedRecord)
    (c : String) (rest : List String) (acc : List NormalizedRecord)
    (h : fetch (pyStrip c) = Except.ok none) :
    dataLoopT fetch extract (c :: rest) acc =
      (Event.fetchCall (pyStrip c) :: Event.sleepCall 500 ::
        (dataLoopT fetch extract rest acc).1,
       (dataLoopT fetch extract rest acc).2) ∧
    recordOf fetch extract c = none := by
  constructor
  · rw [dataLoopT, h]
  · simp [recordOf, h]

/-- Witness for C2 at a concrete input. -/
theorem absent_fetch_skips_code_witness :
    dataLoopT fetchAbsent extract_data ["X", "Y"] [] =
      (Event.fetchCall "X" :: Event.sleepCall 500 ::
        (dataLoopT fetchAbsent extract_data ["Y"] []).1,
       (dataLoopT fetchAbsent extract_data ["Y"] []).2) ∧
    recordOf fetchAbsent extract_data "X" = none := by
  have hx : pyStrip "X" = "X" := by decide
  have h := absent_fetch_skips_code fetchAbsent extract_data "X" ["Y"] [] (by rfl)
  rw [hx] at h
  exact h

/-- Claim C5: the orchestrator strips surrounding whitespace from each code
before passing it to the Fetcher: every Fetcher invocation of a run takes
the stripped form of one of the input codes, the first event for a code
`c` is the fetch of `pyStrip c`, and "  D05.SI " in particular is fetched
as "D05.SI". -/
theorem codes_trimmed_before_fetch
    (fetch : String → Except String (Option RawTickerData))
    (extract : String → RawTickerData → Except String NormalizedRecord)
    (codes : List String) (acc : List NormalizedRecord) :
    (∀ s, Event.fetchCall s ∈ (dataLoopT fetch extract codes acc).1 →
      ∃ c ∈ codes, s = pyStrip c) ∧
    (∀ c rest, ((dataLoopT fetch extract (c :: rest) acc).1).head? =
      some (Event.fetchCall (pyStrip c))) ∧
    pyStrip "  D05.SI " = "D05.SI" := by
  refine ⟨fun s hs => dataLoopT_fetch_args fetch extract codes acc s hs, ?_, by decide⟩
  intro c rest
  rw [dataLoopT]
  split
  · rfl
  · rfl
  · split
    · rfl
    · rfl

/-- Witness for C5 at a concrete input: the one fetch argument of the run
on ["  D05.SI "] is the stripped form of an input code. -/
theorem codes_trimmed_before_fetch_witness :
    (∃ c ∈ ["  D05.SI "], "D05.SI" = pyStrip c) ∧
    ((dataLoopT fetchAbsent extract_data ["  D05.SI "] []).1).head? =
      some (Event.fetchCall "D05.SI") := by
  constructor
  · exact (codes_trimmed_before_fetch fetchAbsent extract_data ["  D05.SI "] []).1
      "D05.SI" (by decide)
  · have h := (codes_trimmed_before_fetch fetchAbsent extract_data [] []).2.1
      "  D05.SI " []
    have hx : pyStrip "  D05.SI " = "D05.SI" := by decide
    rw [hx] at h
    exact h

/-- Claim C10: on an exception-free run, the output list is exactly, in the
input order, the one record each successfully fetched code contributes
(the loop appends at most once per iteration and never reorders). -/
theorem output_order_matches_input
    (fetch : String → Except String (Option RawTickerData))
    (extract : String → RawTickerData → Except String NormalizedRecord)
    (codes : List String) (rs : List NormalizedRecord)
    (h : (dataLoopT fetch extract codes []).2 = Except.ok rs) :
    rs = codes.filterMap (recordOf fetch extract) := by
  have := dataLoopT_ok_eq fetch extract codes [] rs h
  simpa using this

/-- Witness for C10 at a concrete input: of the codes ["A", "B", "C"] only
"B" is successfully fetched, and the output is exactly its record. -/
theorem output_order_matches_input_witness :
    (dataLoopT fetchMixed extract_data ["A", "B", "C"] []).2 =
      Except.ok [recEmptyB] ∧
    [recEmptyB] = ["A", "B", "C"].filterMap (recordOf fetchMixed extract_data) := by
  have h : (dataLoopT fetchMixed extract_data ["A", "B", "C"] []).2 =
      Except.ok [recEmptyB] := by decide
  exact ⟨h, output_order_matches_input fetchMixed extract_data ["A", "B", "C"] [recEmptyB] h⟩

/-- Claim C6: on an exception-free run the tickers are processed strictly
sequentially — the event trace is the concatenation, in input order, of the
per-code traces, each of which fetches (and, when data was returned,
normalizes) its own code before the next code's trace begins — and every
iteration ends with the fixed `time.sleep(0.5)`: every sleep event of the
run is exactly 500 ms, which lies within the 100-500 ms (0.1-0.5 s)
band. -/
theorem sequential_fixed_delay
    (fetch : String → Except String (Option RawTickerData))
    (extract : String → RawTickerData → Except String NormalizedRecord)
    (codes : List String) (acc rs : List NormalizedRecord)
    (h : (dataLoopT fetch extract codes acc).2 = Except.ok rs) :
    (dataLoopT fetch extract codes acc).1 = codes.flatMap (codeTrace fetch) ∧
    (∀ c, (codeTrace fetch c).head? = some (Event.fetchCall (pyStrip c)) ∧
      (codeTrace fetch c).getLast? = some (Event.sleepCall 500)) ∧
    (∀ n, Event.sleepCall n ∈ (dataLoopT fetch extract codes acc).1 →
      n = 500 ∧ 100 ≤ n ∧ n ≤ 500) := by
  have htr := dataLoopT_ok_trace fetch extract codes acc rs h
  refine ⟨htr, ?_, ?_⟩
  · intro c
    unfold codeTrace
    split <;> exact ⟨rfl, rfl⟩
  · intro n hn
    rw [htr] at hn
    rw [List.mem_flatMap] at hn
    obtain ⟨c, _, hc⟩ := hn
    unfold codeTrace at hc
    have h500 : n = 500 := by
      split at hc <;> simp at hc <;> exact hc
    exact ⟨h500, by omega, by omega⟩

/-- Witness for C6 at a concrete input. -/
theorem sequential_fixed_delay_witness :
    (dataLoopT fetchMixed extract_data [" A ", "B"] []).1 =
      [" A ", "B"].flatMap (codeTrace fetchMixed) ∧
    (codeTrace fetchMixed " A ").getLast? = some (Event.sleepCall 500) := by
  have h : (dataLoopT fetchMixed extract_data [" A ", "B"] []).2 =
      Except.ok [recEmptyB] := by decide
  have H := sequential_fixed_delay fetchMixed extract_data [" A ", "B"] [] [recEmptyB] h
  exact ⟨H.1, (H.2.1 " A ").2⟩

/-- Claim C4: whenever the Start Analysis handler completes, its output
list has length at most the length of the input code sequence (each code
contributes at most one record, and enrichment preserves the number of
records). -/
theorem output_length_le_input
    (fetch : String → Except String (Option RawTickerData))
    (extract : String → RawTickerData → Except String NormalizedRecord)
    (backend : String → Except String String)
    (codes : List String) (tr : List Event) (rs : List NormalizedRecord)
    (h : analysisT fetch extract backend codes = (tr, RunOutcome.completed rs)) :
    rs.length ≤ codes.length := by
  unfold analysisT at h
  split at h
  · simp at h
  · next results heq =>
    have hlen : results.length ≤ codes.length := by
      have h2 := dataLoopT_ok_eq fetch extract codes [] results heq
      simp only [List.nil_append] at h2
      rw [h2]
      exact List.length_filterMap_le _ _
    split at h
    · have hrs : rs = results := by
        have := congrArg Prod.snd h
        simpa using this.symm
      rw [hrs]
      exact hlen
    · have hrs : rs = batch_analyze_segments backend results := by
        have := congrArg Prod.snd h
        simpa using this.symm
      rw [hrs, batch_analyze_segments_length]
      exact hlen

/-- Witness for C4 at a concrete input: every fetch comes back absent, the
run completes, and the output is empty — strictly shorter than the input
sequence. -/
theorem output_length_le_input_witness :
    analysisT fetchAbsent extract_data backendDown ["X"] =
      (([Event.fetchCall "X", Event.sleepCall 500] : List Event),
        RunOutcome.completed []) ∧
    (([] : List NormalizedRecord)).length ≤ (["X"]).length := by
  have h : analysisT fetchAbsent extract_data backendDown ["X"] =
      (([Event.fetchCall "X", Event.sleepCall 500] : List Event),
        RunOutcome.completed []) := by decide
  exact ⟨h, output_length_le_input fetchAbsent extract_data backendDown ["X"]
    [Event.fetchCall "X", Event.sleepCall 500] [] h⟩

/-- Counterexample to claim C1: the Start Analysis handler has no per-code
exception isolation.  With a Fetcher that raises on code "A" but would
succeed on code "B", the run on ["A", "B"] does not continue to the
remaining code: code "B" is never fetched and the whole run ends in the
handler-level error display, contradicting "the orchestrator continues
processing all remaining codes". -/
theorem run_abort_on_exception_cex :
    fetchBoom "B" = Except.ok (some rawEmpty) ∧
    analysisT fetchBoom extract_data backendDown ["A", "B"] =
      ([Event.fetchCall "A"], RunOutcome.errorShown "boom") ∧
    Event.fetchCall "B" ∉
      (analysisT fetchBoom extract_data backendDown ["A", "B"]).1 := by
  refine ⟨by decide, by decide, by decide⟩

/-- Claim C1 as amended: an exception raised while fetching or normalizing
a code is caught by the `try`/`except` wrapping the entire run — it never
surfaces to the caller, an error message is displayed instead — but it is
not treated as skipping that code only: the loop stops at the failing code,
no remaining code is processed, and the run produces no records at all. -/
theorem run_abort_on_exception
    (fetch : String → Except String (Option RawTickerData))
    (extract : String → RawTickerData → Except String NormalizedRecord)
    (backend : String → Except String String)
    (c : String) (rest : List String) (e : String) :
    (fetch (pyStrip c) = Except.error e →
      analysisT fetch extract backend (c :: rest) =
        ([Event.fetchCall (pyStrip c)], RunOutcome.errorShown e)) ∧
    (∀ raw, fetch (pyStrip c) = Except.ok (some raw) →
      extract (pyStrip c) raw = Except.error e →
      analysisT fetch extract backend (c :: rest) =
        ([Event.fetchCall (pyStrip c), Event.extractCall (pyStrip c)],
          RunOutcome.errorShown e)) ∧
    (∀ codes tr, dataLoopT fetch extract codes [] = (tr, Except.error e) →
      analysisT fetch extract backend codes = (tr, RunOutcome.errorShown e)) := by
  refine ⟨?_, ?_, ?_⟩
  · intro h
    have hl : dataLoopT fetch extract (c :: rest) [] =
        ([Event.fetchCall (pyStrip c)], Except.error e) := by
      rw [dataLoopT, h]
    unfold analysisT
    rw [hl]
  · intro raw hf he
    have hl : dataLoopT fetch extract (c :: rest) [] =
        ([Event.fetchCall (pyStrip c), Event.extractCall (pyStrip c)],
          Except.error e) := by
      simp [dataLoopT, hf, he]
    unfold analysisT
    rw [hl]
  · intro codes tr h
    unfold analysisT
    rw [h]

/-- Witness for the amended C1 at a concrete input. -/
theorem run_abort_on_exception_witness :
    analysisT fetchBoom extract_data backendDown ["A"] =
      ([Event.fetchCall "A"], RunOutcome.errorShown "boom") := by
  have hx : pyStrip "A" = "A" := by decide
  have h := (run_abort_on_exception fetchBoom extract_data backendDown
    "A" [] "boom").1 (by decide)
  rw [hx] at h
  exact h

/-- Counterexample to claim C3: the Enrichment Batcher is not invoked
exactly once for every input sequence.  On the empty input sequence the
accumulated list is empty, line 128's `if all_results:` guard is false,
and the run completes with zero Batcher invocations, not one. -/
theorem enrich_not_called_on_empty_cex :
    (analysisT fetchAbsent extract_data backendDown []).1.countP isEnrichCall
      = 0 ∧
    ¬ ((analysisT fetchAbsent extract_data backendDown []).1.countP isEnrichCall
      = 1) ∧
    analysisT fetchAbsent extract_data backendDown [] =
      ([], RunOutcome.completed []) := by
  refine ⟨by decide, by decide, by decide⟩

/-- Claim C3 as amended: the Enrichment Batcher is invoked at most once per
run, never per ticker; when the loop completes with a non-empty accumulated
list, it is invoked exactly once, after all codes have been fetched and
normalized, with the full accumulated list as its argument; when the
accumulated list is empty it is not invoked at all. -/
theorem enrich_called_at_most_once
    (fetch : String → Except String (Option RawTickerData))
    (extract : String → RawTickerData → Except String NormalizedRecord)
    (backend : String → Except String String) (codes : List String) :
    (analysisT fetch extract backend codes).1.countP isEnrichCall ≤ 1 ∧
    (∀ ltr rs, dataLoopT fetch extract codes [] = (ltr, Except.ok rs) →
      rs ≠ [] →
      analysisT fetch extract backend codes =
        (ltr ++ [Event.enrichCall rs],
         RunOutcome.completed (batch_analyze_segments backend rs))) ∧
    (∀ ltr, dataLoopT fetch extract codes [] = (ltr, Except.ok []) →
      analysisT fetch extract backend codes = (ltr, RunOutcome.completed [])) := by
  refine ⟨?_, ?_, ?_⟩
  · unfold analysisT
    split
    · simp [dataLoopT_no_enrich fetch extract codes []]
    · split
      · simp [dataLoopT_no_enrich fetch extract codes []]
      · simp [List.countP_append, List.countP_cons, isEnrichCall,
          dataLoopT_no_enrich fetch extract codes []]
  · intro ltr rs h hne
    have h2 : (dataLoopT fetch extract codes []).2 = Except.ok rs := by rw [h]
    have h1 : (dataLoopT fetch extract codes []).1 = ltr := by rw [h]
    unfold analysisT
    rw [h2]
    cases rs with
    | nil => exact absurd rfl hne
    | cons r rest => simp [h1]
  · intro ltr h
    have h2 : (dataLoopT fetch extract codes []).2 = Except.ok [] := by rw [h]
    have h1 : (dataLoopT fetch extract codes []).1 = ltr := by rw [h]
    unfold analysisT
    rw [h2]
    simp [h1]

/-- Witness for the amended C3 at a concrete input: on ["B"] the loop
accumulates one record and the Batcher is invoked exactly once, after the
loop's events, with the full accumulated list. -/
theorem enrich_called_at_most_once_witness :
    analysisT fetchMixed extract_data backendDown ["B"] =
      ([Event.fetchCall "B", Event.extractCall "B", Event.sleepCall 500]
          ++ [Event.enrichCall [recEmptyB]],
       RunOutcome.completed (batch_analyze_segments backendDown [recEmptyB])) := by
  exact (enrich_called_at_most_once fetchMixed extract_data backendDown ["B"]).2.1
    [Event.fetchCall "B", Event.extractCall "B", Event.sleepCall 500]
    [recEmptyB] (by decide) (by decide)

/-- The zero-equity guard turns Python division into a total operation:
the guarded expression always succeeds, yielding 0 at zero equity and the
exact quotient otherwise. -/
theorem guardedDiv_ok (a b : ℚ) :
    (if b = 0 then Except.ok 0 else pyDiv a b) =
      Except.ok (if b = 0 then (0 : ℚ) else a / b) := by
  by_cases h : b = 0 <;> simp [h, pyDiv]

/-- Claim C7: for every raw payload (including one where both financial
tables are entirely absent), `extract_data` never raises — it always
returns a record, every financial-figure field of which is a rational
number, hence finite and non-null — and with both tables absent every
financial-figure field (listed explicitly) is exactly 0. -/
theorem extract_data_total_finite (code : String) (raw : RawTickerData) :
    (∃ rec, extract_data code raw = Except.ok rec) ∧
    ((extract_data code ⟨raw.info, none, none, raw.majorHolders⟩).map
      (fun r => [r.revenue, r.grossProfit, r.operatingProfit, r.pretaxProfit,
        r.netProfitGroup, r.netProfitShareholders, r.minorityInterest,
        r.shareholdersEquity, r.totalEquity, r.totalAssets, r.totalDebt,
        r.debtEquityRatio, r.loanEquityRatio])
      = Except.ok (List.replicate 13 (0 : ℚ))) := by
  constructor
  · rw [extract_data]
    simp only [guardedDiv_ok]
    exact ⟨_, rfl⟩
  · rw [extract_data]
    simp [latestPeriod, tableLookup, Except.map, List.replicate]

/-- Claim C8: for every record `extract_data` produces, the Debt/Equity
field is (totalAssets − totalEquity) / totalEquity and the Loan/Equity
field is totalDebt / totalEquity whenever total equity is non-zero, and
both ratio fields are exactly 0 whenever total equity is 0, for any values
of the other figures. -/
theorem ratio_formulas_and_zero_guard (code : String) (raw : RawTickerData)
    (rec : NormalizedRecord) (h : extract_data code raw = Except.ok rec) :
    (rec.totalEquity = 0 →
      rec.debtEquityRatio = 0 ∧ rec.loanEquityRatio = 0) ∧
    (rec.totalEquity ≠ 0 →
      rec.debtEquityRatio = (rec.totalAssets - rec.totalEquity) / rec.totalEquity ∧
      rec.loanEquityRatio = rec.totalDebt / rec.totalEquity) := by
  rw [extract_data] at h
  simp only [guardedDiv_ok, Except.ok.injEq] at h
  subst h
  dsimp only
  constructor
  · intro h0
    exact ⟨if_pos h0, if_pos h0⟩
  · intro h0
    exact ⟨if_neg h0, if_neg h0⟩

/-- A raw payload whose balance sheet has assets and debt but no equity
line items, so total equity extracts as 0. -/
def rawZeroEq : RawTickerData :=
  ⟨[], some ⟨["2024"], [("Total Assets", [some 100]), ("Total Debt", [some 30])]⟩,
   none, none⟩

/-- The record `extract_data` produces for code "Z" from `rawZeroEq`. -/
def recZeroEq : NormalizedRecord :=
  ⟨"Z", "", "", "", "", "not available",
   0, 0, 0, 0, 0, 0, 0, 0, 0, 100, 30, 0, 0⟩

/-- Witness for C8 at a concrete input: with total equity 0 and non-zero
assets and debt, both ratio fields are exactly 0. -/
theorem ratio_formulas_and_zero_guard_witness :
    extract_data "Z" rawZeroEq = Except.ok recZeroEq ∧
    recZeroEq.totalEquity = 0 ∧ recZeroEq.totalAssets = 100 ∧
    recZeroEq.totalDebt = 30 ∧
    recZeroEq.debtEquityRatio = 0 ∧ recZeroEq.loanEquityRatio = 0 := by
  have h : extract_data "Z" rawZeroEq = Except.ok recZeroEq := by decide
  have H := (ratio_formulas_and_zero_guard "Z" rawZeroEq recZeroEq h).1 (by decide)
  exact ⟨h, by decide, by decide, by decide, H.1, H.2⟩

/-- Claim C9: enrichment is best-effort per batch.  (1) Under total backend
unavailability the Batcher returns all input records unchanged (segment
fields left as given, never raising — it is a total function).  (2) A run
of batches whose backend call or response parse failed leaves the records
untouched and does not prevent later batches from being attempted on those
same records.  (3) A batch with a valid parsed response merges its label
map into the accumulated records before the remaining batches run.  (4)
Merging updates exactly the records whose ticker code the map contains;
all other records — in particular those of a failed batch — keep their
existing segment values. -/
theorem enrich_batch_isolation (backend : String → Except String String)
    (recs : List NormalizedRecord) :
    ((∀ p s, backend p ≠ Except.ok s) →
      batch_analyze_segments backend recs = recs) ∧
    (∀ (bs₁ bs₂ : List (List NormalizedRecord)) (acc : List NormalizedRecord),
      (∀ b ∈ bs₁, segMapOf backend b = none) →
      List.foldl (enrichStep backend) acc (bs₁ ++ bs₂) =
        List.foldl (enrichStep backend) acc bs₂) ∧
    (∀ (b : List NormalizedRecord) (bs : List (List NormalizedRecord))
        (acc : List NormalizedRecord) (m : List (String × String)),
      segMapOf backend b = some m →
      List.foldl (enrichStep backend) acc (b :: bs) =
        List.foldl (enrichStep backend) (applySegments m acc) bs) ∧
    (∀ (m : List (String × String)) (rs : List NormalizedRecord),
      applySegments m rs = rs.map (fun r =>
        match List.lookup r.code m with
        | some s => { r with segment := s }
        | none => r)) := by
  refine ⟨?_, foldl_enrichStep_skip backend, ?_, fun m rs => rfl⟩
  · intro hback
    unfold batch_analyze_segments
    have hall : ∀ b ∈ chunkList batchSize (recs.filter (fun r => r.summary ≠ "")),
        segMapOf backend b = none := by
      intro b _
      unfold segMapOf
      cases hb : backend (buildPrompt b) with
      | error e => rfl
      | ok s => exact absurd hb (hback _ s)
    have := foldl_enrichStep_skip backend
      (chunkList batchSize (recs.filter (fun r => r.summary ≠ ""))) [] recs hall
    simpa using this
  · intro b bs acc m hm
    rw [List.foldl_cons]
    simp [enrichStep, hm]

/-- Witness for C9 at a concrete input: a fully unavailable backend leaves
the record list unchanged, and a batch with a valid JSON response updates
its own record's segment. -/
theorem enrich_batch_isolation_witness :
    batch_analyze_segments backendDown [recA] = [recA] ∧
    List.foldl (enrichStep backendOk) [recA] [[recA]] =
      applySegments [("AAA", "Tech, Cloud")] [recA] ∧
    applySegments [("AAA", "Tech, Cloud")] [recA] =
      [{ recA with segment := "Tech, Cloud" }] := by
  refine ⟨(enrich_batch_isolation backendDown [recA]).1 ?_, ?_, by decide⟩
  · intro p s h
    exact Except.noConfusion h
  · have h := (enrich_batch_isolation backendOk [recA]).2.2.1
      [recA] [] [recA] [("AAA", "Tech, Cloud")] (by decide)
    simpa using h
